import Mathlib

/-!
Shallow embedding of the DAE disaggregator core
(src/DAE/daedisaggregator.py, class DAEDisaggregator).

Modelling conventions:
- a power reading is a rational number (`ℚ`); a possibly-missing reading is
  `Option ℚ` (`none` models a NaN entry of a pandas series);
- a time-indexed series chunk is a `List (Nat × Option ℚ)` of
  (timestamp, reading) pairs in index order, with distinct timestamps
  (pandas series with a unique monotone index);
- the keras model is a black box `predict : List (List ℚ) → List (List ℚ)`
  mapping a window batch to a window batch, exactly as the code consumes it;
- in-place mutation of an argument (`fillna(0, inplace=True)`) is modelled by
  an explicit function giving the post-call state of that argument.
-/

/-- Series with missing entries: values paired with their timestamps. -/
abbrev RawSeries := List (Nat × Option ℚ)

/-- Series after missing values have been replaced: total values. -/
abbrev Series := List (Nat × ℚ)

/-- Effect of `chunk.fillna(0, inplace=True)` followed by reading the chunk:
every missing value becomes `0` (daedisaggregator.py lines 101-102, 193). -/
def fillna (xs : RawSeries) : Series :=
  xs.map (fun p => (p.1, p.2.getD 0))

/-- Post-call state of a series object on which `fillna(0, inplace=True)` ran:
still a raw series, but every missing entry has been overwritten with `0`. -/
def fillnaInPlace (xs : RawSeries) : RawSeries :=
  xs.map (fun p => (p.1, some (p.2.getD 0)))

/-- Padding count `additional = s - (up_limit % s)` computed before windowing
(daedisaggregator.py lines 109 and 195).  With `%` the Python modulo on
nonnegative ints, this is natural subtraction. -/
def additional (n s : Nat) : Nat :=
  s - n % s

/-- Reshape of a flat padded value list into windows of length `s`:
`np.reshape(X_batch, (len(X_batch) / s, s, 1))` (lines 113-114, 197).
Window `i` holds samples `[i*s, (i+1)*s)` of the flat list. -/
def windowBatch (l : List ℚ) (s : Nat) : List (List ℚ) :=
  (List.range (l.length / s)).map (fun i => (l.drop (i * s)).take s)

/-- Windowing of a (NaN-free) series: append `additional` zeros to the values
(`np.append(mains, np.zeros(additional))`, lines 110-111, 196) and reshape
into windows of length `s`. -/
def windowSeries (s : Nat) (srs : Series) : List (List ℚ) :=
  windowBatch (srs.map Prod.snd ++ List.replicate (additional srs.length s) 0) s

/-- Number of windows produced for an input of length `n`:
`int(len(X_batch) / s)` with `len(X_batch) = n + additional`. -/
def windowCount (n s : Nat) : Nat :=
  (n + additional n s) / s

/-- De-windowing (lines 200-201): flatten the prediction batch
(`np.reshape(pred, (up_limit + additional))`), truncate to the original length
(`[:up_limit]`) and re-attach the original time index
(`pd.Series(pred, index=mains.index)`). -/
def dewindow (batch : List (List ℚ)) (n : Nat) (idx : List Nat) : Series :=
  idx.zip (batch.flatten.take n)

/-- Normalization `_normalize` (lines 235-246): elementwise division of the
values by `mmax`; a missing value stays missing (NaN / m is NaN). -/
def _normalize (chunk : List ℚ) (mmax : ℚ) : List ℚ :=
  chunk.map (fun v => v / mmax)

/-- Denormalization `_denormalize` (lines 248-260): elementwise
multiplication of the values by `mmax`. -/
def _denormalize (chunk : List ℚ) (mmax : ℚ) : List ℚ :=
  chunk.map (fun v => v * mmax)

/-- Normalization applied to a raw time-indexed chunk (`chunk / mmax`,
line 147): values are divided, timestamps kept, missing stays missing. -/
def normalizeRaw (xs : RawSeries) (mmax : ℚ) : RawSeries :=
  xs.map (fun p => (p.1, p.2.map (fun v => v / mmax)))

/-- Clip step `appliance_power[appliance_power < 0] = 0` (line 150). -/
def clipSeries (xs : Series) : Series :=
  xs.map (fun p => (p.1, if p.2 < 0 then 0 else p.2))

/-- Denormalization of a time-indexed series (line 151). -/
def denormSeries (xs : Series) (mmax : ℚ) : Series :=
  xs.map (fun p => (p.1, p.2 * mmax))

/-- Method `disaggregate_chunk` (lines 178-206): fill NaNs with 0, pad the
values with `additional` zeros, reshape to a window batch, run the model,
flatten the prediction, truncate to the original length and re-attach the
original index. -/
def disaggregate_chunk (s : Nat) (predict : List (List ℚ) → List (List ℚ))
    (mains : RawSeries) : Series :=
  let n := mains.length
  let padded := (fillna mains).map Prod.snd ++ List.replicate (additional n s) 0
  let pred := (predict (windowBatch padded s)).flatten.take n
  (mains.map Prod.fst).zip pred

/-- Index intersection `mainchunk.index.intersection(meterchunk.index)`
(line 103): the timestamps of the first series that also occur in the second,
in the first series' order (pandas, unique monotone indices). -/
def indexIntersection (xs ys : Series) : List Nat :=
  (xs.map Prod.fst).filter (fun t => decide (t ∈ ys.map Prod.fst))

/-- Label-based selection `chunk[ix]` (lines 104-105): the rows of `chunk`
whose timestamp is listed in `ix`, in the order of `ix`. -/
def restrictTo (xs : Series) (ix : List Nat) : Series :=
  ix.filterMap (fun t => (xs.lookup t).map (fun v => (t, v)))

/-- Method `train_on_chunk` (lines 86-116), windowing part: fill NaNs in both
chunks, intersect their indices, restrict both to the common index, and window
each restricted series independently into the `(X_batch, Y_batch)` pair passed
to `model.fit`. -/
def train_on_chunk (s : Nat) (mainchunk meterchunk : RawSeries) :
    List (List ℚ) × List (List ℚ) :=
  let mc := fillna mainchunk
  let wc := fillna meterchunk
  let ix := indexIntersection mc wc
  (windowSeries s (restrictTo mc ix), windowSeries s (restrictTo wc ix))

/-- Post-call state of the `mains` argument of `disaggregate_chunk`: line 193
runs `mains.fillna(0, inplace=True)`, mutating the caller's series. -/
def disaggregateChunkArgPost (mains : RawSeries) : RawSeries :=
  fillnaInPlace mains

/-- Post-call states of the two chunk arguments of `train_on_chunk`:
lines 101-102 run `fillna(0, inplace=True)` on both. -/
def trainOnChunkArgPost (mainchunk meterchunk : RawSeries) :
    RawSeries × RawSeries :=
  (fillnaInPlace mainchunk, fillnaInPlace meterchunk)

/-- Maximum of the present values of a chunk (`mainchunk.max()`, line 73;
pandas skips NaN); `none` for a chunk with no present value. -/
def seriesMax (xs : RawSeries) : Option ℚ :=
  (xs.filterMap Prod.snd).max?

/-- Scale update of method `train` (lines 72-73): `self.mmax` is written only
when it is still unset, and only from the given chunk. -/
def trainScaleInit (mmax0 : Option ℚ) (firstMain : RawSeries) : Option ℚ :=
  if mmax0 = none then seriesMax firstMain else mmax0

/-- Scale after a whole `train` call over a stream of mains chunks: the check
at lines 72-73 runs once, on the first chunk, before the training loop; the
loop body (lines 75-84) never assigns `self.mmax`. -/
def trainScale (mmax0 : Option ℚ) (mainChunks : List RawSeries) : Option ℚ :=
  match mainChunks with
  | [] => mmax0
  | c :: _ => trainScaleInit mmax0 c

/-- Mutable state observed by the `disaggregate` loop (lines 135-176):
the instance's scale, the tracked timeframes (modelled by each processed
chunk's index), the per-chunk appliance outputs appended to the datastore,
and the `data_is_available` flag. -/
structure DisaggAcc where
  mmax : ℚ
  timeframes : List (List Nat)
  outputs : List Series
  dataAvailable : Bool
deriving DecidableEq

/-- Body of the `disaggregate` loop for one mains chunk (lines 140-165):
skip chunks shorter than `MIN_CHUNK_LENGTH` (= `sequence_length`); otherwise
record the timeframe, normalize with the instance scale, run
`disaggregate_chunk`, clip negatives to zero, denormalize, and append the
result to the outputs. -/
def disaggStep (s : Nat) (predict : List (List ℚ) → List (List ℚ))
    (acc : DisaggAcc) (chunk : RawSeries) : DisaggAcc :=
  if chunk.length < s then acc
  else
    let chunk2 := normalizeRaw chunk acc.mmax
    let ap := disaggregate_chunk s predict chunk2
    let ap2 := clipSeries ap
    let ap3 := denormSeries ap2 acc.mmax
    { mmax := acc.mmax
      timeframes := acc.timeframes ++ [chunk.map Prod.fst]
      outputs := acc.outputs ++ [ap3]
      dataAvailable := true }

/-- Whole `disaggregate` loop over a stream of mains chunks, started from the
instance's scale with empty tracking state. -/
def disaggregate (s : Nat) (predict : List (List ℚ) → List (List ℚ))
    (mmax : ℚ) (chunks : List RawSeries) : DisaggAcc :=
  chunks.foldl (disaggStep s predict) ⟨mmax, [], [], false⟩

/-- Instance state touched by `import_model`: the keras model (opaque, an
identifier) and the scale. -/
structure DAEInstanceState where
  model : Nat
  mmax : Option ℚ
deriving DecidableEq

/-- Persisted artifact: the serialized predictor plus, when present, the
`disaggregator-data/mmax` dataset. -/
structure ModelArtifact where
  predictor : Nat
  mmaxData : Option ℚ
deriving DecidableEq

/-- Method `import_model` (lines 209-221): `self.model = load_model(filename)`
runs first; then the `mmax` dataset is read and assigned.  When the dataset is
absent the read raises (the returned flag is `true`) after the model field has
already been replaced; the exception leaves `self.mmax` unassigned. -/
def import_model (st : DAEInstanceState) (a : ModelArtifact) :
    DAEInstanceState × Bool :=
  let st1 : DAEInstanceState := { st with model := a.predictor }
  match a.mmaxData with
  | none => (st1, true)
  | some v => ({ st1 with mmax := some v }, false)

/-! Helper lemmas about padding and windowing. -/

lemma add_additional (n s : Nat) (hs : 0 < s) :
    n + additional n s = s * (n / s + 1) := by
  have h1 := Nat.div_add_mod n s
  have h2 := Nat.mod_lt n hs
  unfold additional
  rw [Nat.mul_add, Nat.mul_one]
  omega

lemma flatten_windows_aux (l : List ℚ) (s : Nat) (k : Nat) :
    ((List.range k).map (fun i => (l.drop (i * s)).take s)).flatten
      = l.take (k * s) := by
  induction k with
  | zero => simp
  | succ k ih =>
      rw [List.range_succ, List.map_append, List.flatten_append]
      simp only [List.map_cons, List.map_nil, List.flatten_cons, List.flatten_nil,
        List.append_nil]
      rw [ih, Nat.succ_mul, List.take_add]

lemma windowBatch_flatten (l : List ℚ) (s : Nat) (h : l.length % s = 0) :
    (windowBatch l s).flatten = l := by
  unfold windowBatch
  rw [flatten_windows_aux, Nat.div_mul_cancel (Nat.dvd_of_mod_eq_zero h),
    List.take_length]

lemma windowSeries_padded_length (s : Nat) (srs : Series) :
    (srs.map Prod.snd ++ List.replicate (additional srs.length s) 0).length
      = srs.length + additional srs.length s := by
  simp

lemma windowSeries_flatten (s : Nat) (hs : 0 < s) (srs : Series) :
    (windowSeries s srs).flatten
      = srs.map Prod.snd ++ List.replicate (additional srs.length s) 0 := by
  unfold windowSeries
  apply windowBatch_flatten
  rw [windowSeries_padded_length, add_additional _ _ hs]
  exact Nat.mul_mod_right s _

lemma windowSeries_length (s : Nat) (srs : Series) :
    (windowSeries s srs).length = windowCount srs.length s := by
  simp [windowSeries, windowBatch, windowCount]

lemma windowBatch_get (l : List ℚ) (s i : Nat)
    (hi : i < (windowBatch l s).length) :
    (windowBatch l s).get ⟨i, hi⟩ = (l.drop (i * s)).take s := by
  unfold windowBatch at hi ⊢
  simp [List.get_eq_getElem, List.getElem_map, List.getElem_range]

lemma windowBatch_window_length (l : List ℚ) (s : Nat) (hs : 0 < s)
    (h : l.length % s = 0) :
    ∀ w ∈ windowBatch l s, w.length = s := by
  intro w hw
  unfold windowBatch at hw
  obtain ⟨i, hi, rfl⟩ := List.mem_map.mp hw
  rw [List.mem_range] at hi
  have hmul : (i + 1) * s ≤ l.length := by
    calc (i + 1) * s ≤ l.length / s * s :=
          Nat.mul_le_mul_right s (Nat.succ_le_of_lt hi)
    _ = l.length := Nat.div_mul_cancel (Nat.dvd_of_mod_eq_zero h)
  have hle : i * s + s ≤ l.length := by rw [← Nat.succ_mul]; exact hmul
  simp only [List.length_take, List.length_drop]
  exact min_eq_left (by omega)

/-- C10: for every input length `n` and window size `s > 0`, the computed
padding satisfies `1 ≤ pad ≤ s` and `(n + pad) % s = 0`, so the padded
sequence divides exactly into whole windows of length `s`: every window of
the reshaped batch has exactly `s` elements and the window count times `s`
recovers the padded length, never needing a partial window. -/
theorem padding_always_completes_windows (n s : Nat) (hs : 0 < s) :
    1 ≤ additional n s ∧ additional n s ≤ s ∧ (n + additional n s) % s = 0
    ∧ ∀ srs : Series, srs.length = n →
        (∀ w ∈ windowSeries s srs, w.length = s)
        ∧ (windowSeries s srs).length * s = n + additional n s := by
  have h2 := Nat.mod_lt n hs
  have hdvd : s ∣ (n + additional n s) :=
    Nat.dvd_of_mod_eq_zero (by rw [add_additional n s hs]; exact Nat.mul_mod_right s _)
  refine ⟨by unfold additional; omega, by unfold additional; omega, ?_, ?_⟩
  · rw [add_additional n s hs]; exact Nat.mul_mod_right s _
  · intro srs hsrs
    have hmod :
        (srs.map Prod.snd ++ List.replicate (additional srs.length s) 0).length % s = 0 := by
      rw [windowSeries_padded_length, hsrs, add_additional n s hs]
      exact Nat.mul_mod_right s _
    refine ⟨windowBatch_window_length _ s hs hmod, ?_⟩
    rw [windowSeries_length, hsrs]
    unfold windowCount
    exact Nat.div_mul_cancel hdvd

theorem padding_always_completes_windows_witness :
    0 < 2 ∧
    (1 ≤ additional 5 2 ∧ additional 5 2 ≤ 2 ∧ (5 + additional 5 2) % 2 = 0
     ∧ ∀ srs : Series, srs.length = 5 →
        (∀ w ∈ windowSeries 2 srs, w.length = 2)
        ∧ (windowSeries 2 srs).length * 2 = 5 + additional 5 2) :=
  ⟨by decide, padding_always_completes_windows 5 2 (by decide)⟩

/-- C2: the windower pads with `s - (n mod s)` zeros when `n mod s ≠ 0` and
with a full window of `s` zeros when `n mod s = 0`; hence a series of length
exactly `k*s` produces `k + 1` windows, the last being all zeros, and window
`i` covers samples `[i*s, (i+1)*s)` of the padded sequence. -/
theorem padding_policy_window_count (s : Nat) (hs : 0 < s) :
    (∀ n, n % s ≠ 0 → additional n s = s - n % s)
    ∧ (∀ n, n % s = 0 → additional n s = s)
    ∧ (∀ (srs : Series) (k : Nat), srs.length = k * s →
        (windowSeries s srs).length = k + 1
        ∧ ∀ hk : k < (windowSeries s srs).length,
            (windowSeries s srs).get ⟨k, hk⟩ = List.replicate s 0)
    ∧ ∀ (l : List ℚ) (i : Nat) (hi : i < (windowBatch l s).length),
        (windowBatch l s).get ⟨i, hi⟩ = (l.drop (i * s)).take s := by
  refine ⟨fun n _ => rfl, ?_, ?_, fun l i hi => windowBatch_get l s i hi⟩
  · intro n h; unfold additional; omega
  · intro srs k hk
    have hmod : (k * s) % s = 0 := Nat.mul_mod_left k s
    have hadd : additional srs.length s = s := by
      unfold additional; rw [hk, hmod, Nat.sub_zero]
    have hvlen : (srs.map Prod.snd).length = k * s := by
      rw [List.length_map, hk]
    constructor
    · rw [windowSeries_length, hk]
      unfold windowCount additional
      rw [hmod, Nat.sub_zero, ← Nat.succ_mul]
      exact Nat.mul_div_cancel _ hs
    · intro hkk
      unfold windowSeries at hkk ⊢
      rw [windowBatch_get, hadd, ← hvlen, List.drop_left]
      simp [List.take_replicate]

theorem padding_policy_window_count_witness :
    0 < 2 ∧
    ((∀ n, n % 2 ≠ 0 → additional n 2 = 2 - n % 2)
     ∧ (∀ n, n % 2 = 0 → additional n 2 = 2)
     ∧ (∀ (srs : Series) (k : Nat), srs.length = k * 2 →
          (windowSeries 2 srs).length = k + 1
          ∧ ∀ hk : k < (windowSeries 2 srs).length,
              (windowSeries 2 srs).get ⟨k, hk⟩ = List.replicate 2 0)
     ∧ ∀ (l : List ℚ) (i : Nat) (hi : i < (windowBatch l 2).length),
          (windowBatch l 2).get ⟨i, hi⟩ = (l.drop (i * 2)).take 2) :=
  ⟨by decide, padding_policy_window_count 2 (by decide)⟩

/-- C1: windowing a series and then de-windowing (flatten, truncate to the
original length, re-attach the original index) returns a series of exactly
the original length, equal in index and values to the NaN-filled input; the
truncation discards exactly the zero padding appended during windowing. -/
theorem window_dewindow_roundtrip (xs : RawSeries) (s : Nat) (hs : 0 < s) :
    dewindow (windowSeries s (fillna xs)) xs.length (xs.map Prod.fst) = fillna xs
    ∧ (dewindow (windowSeries s (fillna xs)) xs.length (xs.map Prod.fst)).length
        = xs.length
    ∧ (windowSeries s (fillna xs)).flatten.take xs.length = (fillna xs).map Prod.snd
    ∧ (windowSeries s (fillna xs)).flatten.drop xs.length
        = List.replicate (additional xs.length s) 0 := by
  have hlen : (fillna xs).length = xs.length := by simp [fillna]
  have hflat := windowSeries_flatten s hs (fillna xs)
  rw [hlen] at hflat
  have hvlen : ((fillna xs).map Prod.snd).length = xs.length := by simp [fillna]
  have htake : (windowSeries s (fillna xs)).flatten.take xs.length
      = (fillna xs).map Prod.snd := by
    rw [hflat, ← hvlen, List.take_left]
  have hdrop : (windowSeries s (fillna xs)).flatten.drop xs.length
      = List.replicate (additional xs.length s) 0 := by
    rw [hflat, ← hvlen, List.drop_left]
  have hvals : (fillna xs).map Prod.snd = xs.map (fun p => p.2.getD 0) := by
    simp [fillna, List.map_map]
  have hmain : dewindow (windowSeries s (fillna xs)) xs.length (xs.map Prod.fst)
      = fillna xs := by
    unfold dewindow
    rw [htake, hvals, List.zip_map']
    rfl
  exact ⟨hmain, by rw [hmain, hlen], htake, hdrop⟩

theorem window_dewindow_roundtrip_witness :
    0 < 2 ∧
    (dewindow (windowSeries 2 (fillna [(0, some 3), (1, none), (2, some 5)]))
        (List.length ([(0, some 3), (1, none), (2, some 5)] : RawSeries))
        (([(0, some 3), (1, none), (2, some 5)] : RawSeries).map Prod.fst)
      = fillna [(0, some 3), (1, none), (2, some 5)]
     ∧ (dewindow (windowSeries 2 (fillna [(0, some 3), (1, none), (2, some 5)]))
        (List.length ([(0, some 3), (1, none), (2, some 5)] : RawSeries))
        (([(0, some 3), (1, none), (2, some 5)] : RawSeries).map Prod.fst)).length
      = List.length ([(0, some 3), (1, none), (2, some 5)] : RawSeries)
     ∧ (windowSeries 2 (fillna [(0, some 3), (1, none), (2, some 5)])).flatten.take
        (List.length ([(0, some 3), (1, none), (2, some 5)] : RawSeries))
      = (fillna [(0, some 3), (1, none), (2, some 5)]).map Prod.snd
     ∧ (windowSeries 2 (fillna [(0, some 3), (1, none), (2, some 5)])).flatten.drop
        (List.length ([(0, some 3), (1, none), (2, some 5)] : RawSeries))
      = List.replicate
          (additional (List.length ([(0, some 3), (1, none), (2, some 5)] : RawSeries)) 2) 0) :=
  ⟨by decide, window_dewindow_roundtrip [(0, some 3), (1, none), (2, some 5)] 2 (by decide)⟩

/-- C3: denormalizing a normalized series with the same positive scale gives
back the series elementwise, when no clipping happens in between. -/
theorem denormalize_normalize_inverse (xs : List ℚ) (m : ℚ) (hm : 0 < m) :
    _denormalize (_normalize xs m) m = xs := by
  unfold _normalize _denormalize
  rw [List.map_map]
  have h : ∀ v ∈ xs, ((fun v => v * m) ∘ fun v => v / m) v = id v := by
    intro v _
    exact div_mul_cancel₀ v (ne_of_gt hm)
  rw [List.map_congr_left h, List.map_id]

theorem denormalize_normalize_inverse_witness :
    0 < (2 : ℚ) ∧ _denormalize (_normalize [3, -5, 7] 2) 2 = [3, -5, 7] :=
  ⟨by norm_num, denormalize_normalize_inverse [3, -5, 7] 2 (by norm_num)⟩

/-! Helper lemmas about the disaggregation loop. -/

lemma clipSeries_nonneg (xs : Series) : ∀ p ∈ clipSeries xs, 0 ≤ p.2 := by
  intro p hp
  unfold clipSeries at hp
  obtain ⟨q, _, rfl⟩ := List.mem_map.mp hp
  by_cases h : q.2 < 0
  · simp [h]
  · simp only [h, if_false]
    exact le_of_not_lt h

lemma denorm_clip_nonneg (xs : Series) (m : ℚ) (hm : 0 < m) :
    ∀ p ∈ denormSeries (clipSeries xs) m, 0 ≤ p.2 := by
  intro p hp
  unfold denormSeries at hp
  obtain ⟨q, hq, rfl⟩ := List.mem_map.mp hp
  exact mul_nonneg (clipSeries_nonneg xs q hq) (le_of_lt hm)

lemma disaggStep_mmax (s : Nat) (predict : List (List ℚ) → List (List ℚ))
    (acc : DisaggAcc) (c : RawSeries) :
    (disaggStep s predict acc c).mmax = acc.mmax := by
  unfold disaggStep
  split <;> rfl

lemma disaggregate_foldl_mmax (s : Nat) (predict : List (List ℚ) → List (List ℚ)) :
    ∀ (chunks : List RawSeries) (acc : DisaggAcc),
      (chunks.foldl (disaggStep s predict) acc).mmax = acc.mmax := by
  intro chunks
  induction chunks with
  | nil => intro acc; rfl
  | cons c rest ih =>
      intro acc
      rw [List.foldl_cons, ih, disaggStep_mmax]

lemma disaggregate_outputs_nonneg_aux (s : Nat)
    (predict : List (List ℚ) → List (List ℚ)) :
    ∀ (chunks : List RawSeries) (acc : DisaggAcc), 0 < acc.mmax →
      (∀ out ∈ acc.outputs, ∀ p ∈ out, 0 ≤ p.2) →
      ∀ out ∈ (chunks.foldl (disaggStep s predict) acc).outputs, ∀ p ∈ out, 0 ≤ p.2 := by
  intro chunks
  induction chunks with
  | nil => intro acc _ hinv; simpa using hinv
  | cons c rest ih =>
      intro acc h0 hinv
      rw [List.foldl_cons]
      refine ih _ (by rw [disaggStep_mmax]; exact h0) ?_
      unfold disaggStep
      split
      · exact hinv
      · intro out hout
        simp only [List.mem_append, List.mem_singleton] at hout
        rcases hout with h | h
        · exact hinv out h
        · subst h
          exact denorm_clip_nonneg _ _ h0

/-- C4: in the disaggregation loop the clip step forces every predicted value
below zero to zero before denormalization, so when the instance scale is
positive every value emitted to the output sink for the appliance is
nonnegative. -/
theorem emitted_values_nonneg (mmax : ℚ) (hm : 0 < mmax) :
    (∀ xs : Series, ∀ p ∈ clipSeries xs, 0 ≤ p.2)
    ∧ ∀ (s : Nat) (predict : List (List ℚ) → List (List ℚ))
        (chunks : List RawSeries),
        ∀ out ∈ (disaggregate s predict mmax chunks).outputs, ∀ p ∈ out, 0 ≤ p.2 := by
  refine ⟨clipSeries_nonneg, ?_⟩
  intro s predict chunks
  unfold disaggregate
  exact disaggregate_outputs_nonneg_aux s predict chunks ⟨mmax, [], [], false⟩ hm
    (by intro out hout; simp at hout)

theorem emitted_values_nonneg_witness :
    0 < (2 : ℚ) ∧
    ((∀ xs : Series, ∀ p ∈ clipSeries xs, 0 ≤ p.2)
     ∧ ∀ (s : Nat) (predict : List (List ℚ) → List (List ℚ))
         (chunks : List RawSeries),
         ∀ out ∈ (disaggregate s predict 2 chunks).outputs, ∀ p ∈ out, 0 ≤ p.2) :=
  ⟨by norm_num, emitted_values_nonneg 2 (by norm_num)⟩

/-- C5: the scale is set at most once: a train call on an instance whose
scale is already set leaves it unchanged whatever the chunks are; a train
call on an unset instance sets it to the maximum of the first mains chunk,
independently of all later chunks; and the whole disaggregate loop returns
the scale it started with. -/
theorem mmax_set_at_most_once :
    (∀ (m : ℚ) (chunks : List RawSeries), trainScale (some m) chunks = some m)
    ∧ (∀ (c : RawSeries) (rest : List RawSeries),
        trainScale none (c :: rest) = seriesMax c)
    ∧ ∀ (s : Nat) (predict : List (List ℚ) → List (List ℚ)) (mmax : ℚ)
        (chunks : List RawSeries),
        (disaggregate s predict mmax chunks).mmax = mmax := by
  refine ⟨?_, ?_, ?_⟩
  · intro m chunks
    cases chunks with
    | nil => rfl
    | cons c rest => simp [trainScale, trainScaleInit]
  · intro c rest
    simp [trainScale, trainScaleInit]
  · intro s predict mmax chunks
    unfold disaggregate
    exact disaggregate_foldl_mmax s predict chunks ⟨mmax, [], [], false⟩

/-- C6: a mains chunk shorter than the sequence length is silently skipped by
the disaggregation loop: the step returns the accumulator unchanged (no
output rows, no tracked timeframe, same scale, same availability flag), and
the loop over the remaining chunks continues as if the chunk were absent. -/
theorem short_chunk_skipped (s : Nat) (predict : List (List ℚ) → List (List ℚ))
    (chunk : RawSeries) (h : chunk.length < s) :
    (∀ acc : DisaggAcc, disaggStep s predict acc chunk = acc)
    ∧ ∀ (mmax : ℚ) (rest : List RawSeries),
        disaggregate s predict mmax (chunk :: rest)
          = disaggregate s predict mmax rest := by
  have hstep : ∀ acc : DisaggAcc, disaggStep s predict acc chunk = acc := by
    intro acc
    unfold disaggStep
    simp [h]
  refine ⟨hstep, ?_⟩
  intro mmax rest
  unfold disaggregate
  rw [List.foldl_cons, hstep]

theorem short_chunk_skipped_witness :
    List.length ([(0, some 1)] : RawSeries) < 2 ∧
    ((∀ acc : DisaggAcc, disaggStep 2 (fun b => b) acc [(0, some 1)] = acc)
     ∧ ∀ (mmax : ℚ) (rest : List RawSeries),
         disaggregate 2 (fun b => b) mmax ([(0, some 1)] :: rest)
           = disaggregate 2 (fun b => b) mmax rest) :=
  ⟨by decide, short_chunk_skipped 2 (fun b => b) [(0, some 1)] (by decide)⟩

/-- C7 counterexample: importing an artifact that lacks the `mmax` dataset
does abort, but only after `self.model = load_model(filename)` has run, so
the instance's predictor is not left untouched: starting from model `1` and
scale `5`, importing a scale-less artifact carrying predictor `2` leaves the
instance holding predictor `2`. -/
theorem import_missing_mmax_replaces_model :
    (import_model ⟨1, some 5⟩ ⟨2, none⟩).2 = true
    ∧ (import_model ⟨1, some 5⟩ ⟨2, none⟩).1.model = 2
    ∧ ¬(import_model ⟨1, some 5⟩ ⟨2, none⟩).1.model = 1 := by
  decide

/-- C7 amended: importing an artifact without the `mmax` metadata fails (the
read of the missing dataset raises, so the import aborts) and leaves the
instance's existing scale untouched, but the predictor has already been
replaced by the artifact's predictor when the failure occurs. -/
theorem import_missing_mmax_aborts (st : DAEInstanceState) (a : ModelArtifact)
    (h : a.mmaxData = none) :
    (import_model st a).2 = true
    ∧ (import_model st a).1.mmax = st.mmax
    ∧ (import_model st a).1.model = a.predictor := by
  unfold import_model
  rw [h]
  exact ⟨rfl, rfl, rfl⟩

theorem import_missing_mmax_aborts_witness :
    (ModelArtifact.mk 2 none).mmaxData = none ∧
    ((import_model ⟨1, some 5⟩ ⟨2, none⟩).2 = true
     ∧ (import_model ⟨1, some 5⟩ ⟨2, none⟩).1.mmax = (DAEInstanceState.mk 1 (some 5)).mmax
     ∧ (import_model ⟨1, some 5⟩ ⟨2, none⟩).1.model = (ModelArtifact.mk 2 none).predictor) :=
  ⟨rfl, import_missing_mmax_aborts ⟨1, some 5⟩ ⟨2, none⟩ rfl⟩

/-! Helper lemmas about index intersection and label selection. -/

lemma lookup_eq_some_of_mem_keys (xs : Series) (t : Nat)
    (h : t ∈ xs.map Prod.fst) : ∃ v, xs.lookup t = some v := by
  induction xs with
  | nil => simp at h
  | cons q rest ih =>
      obtain ⟨k, v⟩ := q
      rw [List.map_cons, List.mem_cons] at h
      by_cases ht : t = k
      · exact ⟨v, by simp [List.lookup_cons, ht]⟩
      · obtain ⟨w, hw⟩ := ih (h.resolve_left ht)
        have hbeq : (t == k) = false := beq_eq_false_iff_ne.mpr ht
        exact ⟨w, by simp [List.lookup_cons, hbeq, hw]⟩

lemma restrictTo_keys (xs : Series) (ix : List Nat)
    (h : ∀ t ∈ ix, t ∈ xs.map Prod.fst) :
    (restrictTo xs ix).map Prod.fst = ix := by
  induction ix with
  | nil => rfl
  | cons t rest ih =>
      obtain ⟨v, hv⟩ := lookup_eq_some_of_mem_keys xs t (h t (List.mem_cons_self t rest))
      unfold restrictTo
      rw [List.filterMap_cons, hv]
      simp only [Option.map_some']
      rw [List.map_cons]
      have htail := ih (fun u hu => h u (List.mem_cons_of_mem t hu))
      unfold restrictTo at htail
      rw [htail]

lemma indexIntersection_mem (xs ys : Series) (t : Nat) :
    t ∈ indexIntersection xs ys ↔ t ∈ xs.map Prod.fst ∧ t ∈ ys.map Prod.fst := by
  unfold indexIntersection
  rw [List.mem_filter, decide_eq_true_eq]

lemma fillna_keys (xs : RawSeries) :
    (fillna xs).map Prod.fst = xs.map Prod.fst := by
  unfold fillna
  rw [List.map_map]
  rfl

/-- C8: in the two-series training variant the common index is exactly the
set of timestamps present in both input chunks; both restricted series carry
exactly that common index in the same order; the two window batches passed
to fit are the windowings, applied identically and independently, of the two
restricted series; and the two batches have the same number of windows. -/
theorem training_index_intersection (s : Nat) (mainchunk meterchunk : RawSeries) :
    (∀ t, t ∈ indexIntersection (fillna mainchunk) (fillna meterchunk)
        ↔ (t ∈ mainchunk.map Prod.fst ∧ t ∈ meterchunk.map Prod.fst))
    ∧ (restrictTo (fillna mainchunk)
          (indexIntersection (fillna mainchunk) (fillna meterchunk))).map Prod.fst
        = indexIntersection (fillna mainchunk) (fillna meterchunk)
    ∧ (restrictTo (fillna meterchunk)
          (indexIntersection (fillna mainchunk) (fillna meterchunk))).map Prod.fst
        = indexIntersection (fillna mainchunk) (fillna meterchunk)
    ∧ (train_on_chunk s mainchunk meterchunk).1
        = windowSeries s (restrictTo (fillna mainchunk)
            (indexIntersection (fillna mainchunk) (fillna meterchunk)))
    ∧ (train_on_chunk s mainchunk meterchunk).2
        = windowSeries s (restrictTo (fillna meterchunk)
            (indexIntersection (fillna mainchunk) (fillna meterchunk)))
    ∧ (train_on_chunk s mainchunk meterchunk).1.length
        = (train_on_chunk s mainchunk meterchunk).2.length := by
  have hmem : ∀ t, t ∈ indexIntersection (fillna mainchunk) (fillna meterchunk)
      ↔ (t ∈ mainchunk.map Prod.fst ∧ t ∈ meterchunk.map Prod.fst) := by
    intro t
    rw [indexIntersection_mem, fillna_keys, fillna_keys]
  have hk1 : (restrictTo (fillna mainchunk)
      (indexIntersection (fillna mainchunk) (fillna meterchunk))).map Prod.fst
      = indexIntersection (fillna mainchunk) (fillna meterchunk) := by
    apply restrictTo_keys
    intro t ht
    rw [fillna_keys]
    exact ((hmem t).mp ht).1
  have hk2 : (restrictTo (fillna meterchunk)
      (indexIntersection (fillna mainchunk) (fillna meterchunk))).map Prod.fst
      = indexIntersection (fillna mainchunk) (fillna meterchunk) := by
    apply restrictTo_keys
    intro t ht
    rw [fillna_keys]
    exact ((hmem t).mp ht).2
  have hlen1 : (restrictTo (fillna mainchunk)
      (indexIntersection (fillna mainchunk) (fillna meterchunk))).length
      = (indexIntersection (fillna mainchunk) (fillna meterchunk)).length := by
    have hc := congrArg List.length hk1
    rwa [List.length_map] at hc
  have hlen2 : (restrictTo (fillna meterchunk)
      (indexIntersection (fillna mainchunk) (fillna meterchunk))).length
      = (indexIntersection (fillna mainchunk) (fillna meterchunk)).length := by
    have hc := congrArg List.length hk2
    rwa [List.length_map] at hc
  refine ⟨hmem, hk1, hk2, rfl, rfl, ?_⟩
  show (windowSeries s _).length = (windowSeries s _).length
  rw [windowSeries_length, windowSeries_length, hlen1, hlen2]

/-- C9 counterexample: an input chunk holding a missing value is not left
unchanged by `disaggregate_chunk`: the in-place missing-value replacement of
line 193 overwrites the missing entry with `0` in the caller's series. -/
theorem fillna_mutates_input :
    disaggregateChunkArgPost [(0, none)] ≠ [(0, none)] := by
  decide

lemma fillnaInPlace_eq_self (xs : RawSeries) (h : ∀ p ∈ xs, p.2.isSome) :
    fillnaInPlace xs = xs := by
  unfold fillnaInPlace
  have hc : ∀ p ∈ xs, (fun p : Nat × Option ℚ => (p.1, some (p.2.getD 0))) p = id p := by
    intro p hp
    obtain ⟨a, b⟩ := p
    cases b with
    | none => exact absurd (h (a, none) hp) (by simp)
    | some v => rfl
  rw [List.map_congr_left hc, List.map_id]

/-- C9 amended: chunks passed to `train_on_chunk` or `disaggregate_chunk` are
mutated in place by the missing-value replacement (each missing reading is
overwritten with 0); an input chunk is unchanged after the call exactly when
it contains no missing value. -/
theorem chunk_unchanged_iff_no_missing (xs : RawSeries)
    (h : ∀ p ∈ xs, p.2.isSome) :
    disaggregateChunkArgPost xs = xs
    ∧ ∀ ys : RawSeries, (∀ p ∈ ys, p.2.isSome) →
        trainOnChunkArgPost xs ys = (xs, ys) := by
  refine ⟨fillnaInPlace_eq_self xs h, ?_⟩
  intro ys hy
  unfold trainOnChunkArgPost
  rw [fillnaInPlace_eq_self xs h, fillnaInPlace_eq_self ys hy]

theorem chunk_unchanged_iff_no_missing_witness :
    (∀ p ∈ ([(0, some 3), (1, some 4)] : RawSeries), p.2.isSome) ∧
    (disaggregateChunkArgPost [(0, some 3), (1, some 4)] = [(0, some 3), (1, some 4)]
     ∧ ∀ ys : RawSeries, (∀ p ∈ ys, p.2.isSome) →
         trainOnChunkArgPost [(0, some 3), (1, some 4)] ys
           = ([(0, some 3), (1, some 4)], ys)) :=
  ⟨by decide, chunk_unchanged_iff_no_missing [(0, some 3), (1, some 4)] (by decide)⟩
